import Mathlib

/-!
Verification of the Compactify tool-mode core (BuildPatchTool).

The repository exposes only the factory declaration
`FCompactifyToolModeFactory::Create` (CompactifyMode.h); the compaction
core itself (ManifestReader, ChunkInventory, ReferenceIndex,
RetentionPolicy, CompactionPlanner, CompactionExecutor) is not present
under src/.  Every definition below is therefore modelled from the
specification text, faithful to its words, and each claim is settled
against that model.
-/

namespace Compactify

/-- Modelled from the spec: `ChunkIdentity` is an immutable content hash
(fixed-width binary digest) identifying one chunk.  The digest value is
embedded as a natural number. -/
abbrev ChunkIdentity := ℕ

/-- Modelled from the spec: `ChunkRecord` is ChunkIdentity + physical
location (path/URI) + byte size + last-modified timestamp, produced by
ChunkInventory (the inventory component is absent from src/). -/
structure ChunkRecord where
  identity : ChunkIdentity
  location : String
  size : ℕ
  lastModified : ℕ
deriving DecidableEq, Repr

/-- Modelled from the spec: `ManifestRecord` is an identifier
(name/version), a build timestamp, and an ordered sequence of
ChunkIdentity references, duplicates allowed (ManifestReader is absent
from src/). -/
structure ManifestRecord where
  ident : String
  buildTimestamp : ℕ
  chunkRefs : List ChunkIdentity
deriving DecidableEq, Repr

/-- Modelled from the spec: the RetentionPolicy configuration surface
`{ minAge, explicitManifestAllowlist, smallChunkPreserveThresholdBytes }`
(RetentionPolicy is absent from src/). -/
structure RetentionPolicy where
  minAge : ℕ
  explicitManifestAllowlist : List String
  smallChunkPreserveThresholdBytes : ℕ
deriving DecidableEq, Repr

/-- Modelled from the spec: the per-manifest RetentionDecision — a
manifest counts toward the live set unless it is older than `minAge`,
with manifests on `explicitManifestAllowlist` always counted live
regardless of age.  `now` is the current time; a manifest's age is
`now - buildTimestamp`. -/
def manifestCountsLive (pol : RetentionPolicy) (now : ℕ) (m : ManifestRecord) : Bool :=
  pol.explicitManifestAllowlist.contains m.ident || decide (now - m.buildTimestamp ≤ pol.minAge)

/-- Modelled from the spec: the manifests selected for retention — the
input stream already filtered by RetentionPolicy. -/
def selectLiveManifests (pol : RetentionPolicy) (now : ℕ)
    (manifests : List ManifestRecord) : List ManifestRecord :=
  manifests.filter (manifestCountsLive pol now)

/-- Modelled from the spec: ReferenceIndex state — a set of ChunkIdentity
values considered live, built by folding all selected ManifestRecords'
chunk references together (order irrelevant, duplicates collapse).
(ReferenceIndex is absent from src/.) -/
def buildLiveSet (manifests : List ManifestRecord) : Finset ChunkIdentity :=
  manifests.foldl (fun acc m => acc ∪ m.chunkRefs.toFinset) ∅

/-- Modelled from the spec: the per-chunk RetentionDecision override —
chunks at or below `smallChunkPreserveThresholdBytes` are never deleted
even when unreferenced. -/
def smallChunkOverride (pol : RetentionPolicy) (c : ChunkRecord) : Bool :=
  decide (c.size ≤ pol.smallChunkPreserveThresholdBytes)

/-- Modelled from the spec: aggregate statistics of a CompactionPlan
(count and total bytes to reclaim). -/
structure PlanStats where
  deleteCount : ℕ
  bytesToReclaim : ℕ
deriving DecidableEq, Repr

/-- Modelled from the spec: `CompactionPlan` — two disjoint sets of
ChunkRecord, `toDelete` and `toKeep`, plus aggregate statistics. -/
structure CompactionPlan where
  toDelete : List ChunkRecord
  toKeep : List ChunkRecord
  stats : PlanStats
deriving DecidableEq, Repr

/-- Modelled from the spec: the CompactionPlanner's per-chunk decision —
keep if (identity ∈ live set) OR (size ≤ smallChunkPreserveThresholdBytes). -/
def keepChunk (live : Finset ChunkIdentity) (pol : RetentionPolicy)
    (c : ChunkRecord) : Bool :=
  decide (c.identity ∈ live) || smallChunkOverride pol c

/-- Modelled from the spec: CompactionPlanner — given the full
ChunkInventory stream, the live ChunkIdentity set, and RetentionPolicy's
small-chunk override, partitions every ChunkRecord into `toDelete` or
`toKeep`, producing aggregate statistics before any deletion occurs
(CompactionPlanner is absent from src/). -/
def planCompaction (inventory : List ChunkRecord) (live : Finset ChunkIdentity)
    (pol : RetentionPolicy) : CompactionPlan :=
  let parts := inventory.partition (keepChunk live pol)
  { toDelete := parts.2
    toKeep := parts.1
    stats :=
      { deleteCount := parts.2.length
        bytesToReclaim := (parts.2.map ChunkRecord.size).sum } }

/-- Modelled from the spec: per attempted deletion, an outcome —
succeeded / failed-with-reason / skipped-dry-run. -/
inductive Outcome where
  | succeeded : Outcome
  | failedWithReason : String → Outcome
  | skippedDryRun : Outcome
deriving DecidableEq, Repr

/-- Whether an outcome is `succeeded`. -/
def Outcome.isSucceeded : Outcome → Bool
  | .succeeded => true
  | _ => false

/-- Modelled from the spec: `ExecutionReport` — per attempted deletion an
outcome, plus totals (total bytes reclaimed, computed only from items
whose outcome is succeeded). -/
structure ExecutionReport where
  items : List (ChunkRecord × Outcome)
  bytesReclaimed : ℕ
deriving DecidableEq, Repr

/-- Modelled from the spec: the apply/preview flag of the configuration
surface. -/
inductive ExecutionMode where
  | preview : ExecutionMode
  | apply : ExecutionMode
deriving DecidableEq, Repr

/-- Modelled from the spec: the storage abstraction's per-chunk delete
operation, supplied by the collaborating chunk storage root — `none`
means the deletion succeeded, `some r` means it failed with reason `r`
(permission denied, I/O error, ...). -/
abbrev DeleteOp := ChunkIdentity → Option String

/-- Modelled from the spec: one deletion attempt of the executor —
attempts the item independently, recording success or
failed-with-reason. -/
def attemptDelete (del : DeleteOp) (c : ChunkRecord) : ChunkRecord × Outcome :=
  match del c.identity with
  | none => (c, Outcome.succeeded)
  | some r => (c, Outcome.failedWithReason r)

/-- Total bytes reclaimed, accumulated item by item: an item contributes
its size exactly when its outcome is succeeded. -/
def tallyReclaimed (items : List (ChunkRecord × Outcome)) : ℕ :=
  items.foldl (fun acc it => if it.2.isSucceeded then acc + it.1.size else acc) 0

/-- Modelled from the spec: CompactionExecutor (absent from src/) —
given a CompactionPlan and an apply vs preview mode, in preview produces
an ExecutionReport with every item marked skipped-dry-run and no storage
mutation; in apply attempts deletion of each `toDelete` item
independently, never aborting on a single failure, and returns the
mutated storage contents together with the aggregated report. -/
def executeCompaction (mode : ExecutionMode) (storage : List ChunkRecord)
    (plan : CompactionPlan) (del : DeleteOp) :
    List ChunkRecord × ExecutionReport :=
  match mode with
  | .preview =>
      (storage,
        { items := plan.toDelete.map (fun c => (c, Outcome.skippedDryRun))
          bytesReclaimed := 0 })
  | .apply =>
      let items := plan.toDelete.map (attemptDelete del)
      let removed := (items.filter (fun it => it.2.isSucceeded)).map
        (fun it => it.1.identity)
      (storage.filter (fun c => !(removed.contains c.identity)),
        { items := items
          bytesReclaimed := tallyReclaimed items })

/-- Modelled from the spec: reasons a run could not complete — only
failures that make the computed plan unsafe or incomplete abort the
entire run. -/
inductive RunError where
  | manifestSourceUnreachable : RunError
  | inventoryScanFailed : RunError
deriving DecidableEq, Repr

/-- Modelled from the spec: the successful output of a run — an
ExecutionReport, or, in preview mode, a CompactionPlan summary. -/
inductive RunOutput where
  | report : ExecutionReport → RunOutput
  | planSummary : CompactionPlan → RunOutput
deriving DecidableEq, Repr

/-- Modelled from the spec: the full configuration surface handed to the
single entry point — the RetentionPolicy parameters and the
apply/preview flag. -/
structure RunConfiguration where
  policy : RetentionPolicy
  mode : ExecutionMode
deriving DecidableEq, Repr

/-- Modelled from the spec: the single "run compaction" entry point
(absent from src/; only the factory declaration
`FCompactifyToolModeFactory::Create` is observable).  It accepts the
configuration, the collaborating manifest source and chunk storage root
(each `none` when unreachable), and returns the run output, or a failure
indicator exactly when the run could not complete. -/
def runCompaction (cfg : RunConfiguration) (now : ℕ)
    (manifestSource : Option (List ManifestRecord))
    (storageRoot : Option (List ChunkRecord)) (del : DeleteOp) :
    Except RunError RunOutput :=
  match manifestSource with
  | none => Except.error RunError.manifestSourceUnreachable
  | some manifests =>
    match storageRoot with
    | none => Except.error RunError.inventoryScanFailed
    | some inventory =>
      let live := buildLiveSet (selectLiveManifests cfg.policy now manifests)
      let plan := planCompaction inventory live cfg.policy
      match cfg.mode with
      | .preview => Except.ok (RunOutput.planSummary plan)
      | .apply =>
          Except.ok (RunOutput.report
            (executeCompaction ExecutionMode.apply inventory plan del).2)

/-! ### Helper lemmas (shared) -/

/-- Membership in the fold that builds the live set, with a generalized
accumulator. -/
lemma mem_foldl_union (ms : List ManifestRecord) (acc : Finset ChunkIdentity)
    (c : ChunkIdentity) :
    c ∈ ms.foldl (fun a m => a ∪ m.chunkRefs.toFinset) acc ↔
      c ∈ acc ∨ ∃ m ∈ ms, c ∈ m.chunkRefs := by
  induction ms generalizing acc with
  | nil => simp
  | cons m ms ih =>
      simp only [List.foldl_cons, ih, Finset.mem_union, List.mem_toFinset,
        List.mem_cons]
      constructor
      · rintro (⟨h | h⟩ | ⟨m', hm', hc⟩)
        · exact Or.inl h
        · exact Or.inr ⟨m, Or.inl rfl, h⟩
        · exact Or.inr ⟨m', Or.inr hm', hc⟩
      · rintro (h | ⟨m', hm' | hm', hc⟩)
        · exact Or.inl (Or.inl h)
        · exact Or.inl (Or.inr (hm' ▸ hc))
        · exact Or.inr ⟨m', hm', hc⟩

/-- A chunk identity is in the live set iff some folded manifest
references it. -/
lemma mem_buildLiveSet (ms : List ManifestRecord) (c : ChunkIdentity) :
    c ∈ buildLiveSet ms ↔ ∃ m ∈ ms, c ∈ m.chunkRefs := by
  simp [buildLiveSet, mem_foldl_union]

/-- The planner's `toKeep` component is the inventory filtered by the
keep decision. -/
lemma planCompaction_toKeep (inventory : List ChunkRecord)
    (live : Finset ChunkIdentity) (pol : RetentionPolicy) :
    (planCompaction inventory live pol).toKeep =
      inventory.filter (keepChunk live pol) := by
  simp [planCompaction, List.partition_eq_filter_filter]

/-- The planner's `toDelete` component is the inventory filtered by the
negated keep decision. -/
lemma planCompaction_toDelete (inventory : List ChunkRecord)
    (live : Finset ChunkIdentity) (pol : RetentionPolicy) :
    (planCompaction inventory live pol).toDelete =
      inventory.filter (fun c => !(keepChunk live pol c)) := by
  simp only [planCompaction, List.partition_eq_filter_filter]
  rfl

/-- Membership in `toKeep`, characterized. -/
lemma mem_toKeep_iff (inventory : List ChunkRecord)
    (live : Finset ChunkIdentity) (pol : RetentionPolicy) (c : ChunkRecord) :
    c ∈ (planCompaction inventory live pol).toKeep ↔
      c ∈ inventory ∧ (c.identity ∈ live ∨
        c.size ≤ pol.smallChunkPreserveThresholdBytes) := by
  simp [planCompaction_toKeep, List.mem_filter, keepChunk, smallChunkOverride]

/-- Membership in `toDelete`, characterized. -/
lemma mem_toDelete_iff (inventory : List ChunkRecord)
    (live : Finset ChunkIdentity) (pol : RetentionPolicy) (c : ChunkRecord) :
    c ∈ (planCompaction inventory live pol).toDelete ↔
      c ∈ inventory ∧ ¬(c.identity ∈ live ∨
        c.size ≤ pol.smallChunkPreserveThresholdBytes) := by
  simp [planCompaction_toDelete, List.mem_filter, keepChunk, smallChunkOverride]

/-! ### Concrete scenario data (spec §8) -/

/-- Scenario chunk A: 100 bytes, referenced by the live manifest. -/
def chunkA : ChunkRecord := ⟨1, "store/A", 100, 0⟩

/-- Scenario chunk B: 50 bytes, unreferenced. -/
def chunkB : ChunkRecord := ⟨2, "store/B", 50, 0⟩

/-- Scenario chunk C: 5 bytes, unreferenced but below the threshold. -/
def chunkC : ChunkRecord := ⟨3, "store/C", 5, 0⟩

/-- Scenario policy: small-chunk preserve threshold of 10 bytes. -/
def scenarioPolicy : RetentionPolicy := ⟨0, [], 10⟩

/-- Scenario plan: inventory {A(100B), B(50B), C(5B)}, live set {A},
threshold 10B. -/
def scenarioPlan : CompactionPlan :=
  planCompaction [chunkA, chunkB, chunkC] {chunkA.identity} scenarioPolicy

/-! ### Claims -/

/-- C1: for every set of manifests and every inventory, a chunk whose
identity is referenced by at least one manifest counted live never
appears in the plan's `toDelete`; equivalently, no `toDelete` chunk's
identity lies in the live set. -/
theorem live_chunk_never_in_toDelete (pol : RetentionPolicy) (now : ℕ)
    (manifests : List ManifestRecord) (inventory : List ChunkRecord)
    (c : ChunkRecord) (m : ManifestRecord)
    (hmem : m ∈ manifests) (hlive : manifestCountsLive pol now m = true)
    (href : c.identity ∈ m.chunkRefs) :
    c ∉ (planCompaction inventory
        (buildLiveSet (selectLiveManifests pol now manifests)) pol).toDelete ∧
    ∀ d ∈ (planCompaction inventory
        (buildLiveSet (selectLiveManifests pol now manifests)) pol).toDelete,
      d.identity ∉ buildLiveSet (selectLiveManifests pol now manifests) := by
  constructor
  · intro hdel
    rw [mem_toDelete_iff] at hdel
    exact hdel.2 (Or.inl ((mem_buildLiveSet _ _).mpr
      ⟨m, List.mem_filter.mpr ⟨hmem, hlive⟩, href⟩))
  · intro d hdel
    rw [mem_toDelete_iff] at hdel
    exact fun hd => hdel.2 (Or.inl hd)

/-- C1 witness: the theorem instantiated on a concrete manifest that
references chunk A. -/
theorem live_chunk_never_in_toDelete_witness :
    chunkA ∉ (planCompaction [chunkA, chunkB, chunkC]
      (buildLiveSet (selectLiveManifests scenarioPolicy 0
        [⟨"M1", 0, [1]⟩])) scenarioPolicy).toDelete ∧
    ∀ d ∈ (planCompaction [chunkA, chunkB, chunkC]
      (buildLiveSet (selectLiveManifests scenarioPolicy 0
        [⟨"M1", 0, [1]⟩])) scenarioPolicy).toDelete,
      d.identity ∉ buildLiveSet (selectLiveManifests scenarioPolicy 0
        [⟨"M1", 0, [1]⟩]) :=
  live_chunk_never_in_toDelete scenarioPolicy 0 [⟨"M1", 0, [1]⟩]
    [chunkA, chunkB, chunkC] chunkA ⟨"M1", 0, [1]⟩
    (by decide) (by decide) (by decide)

/-- C2: each inventory chunk is kept iff its identity is live or its
size is at or below the threshold, otherwise it is marked for deletion;
and on the concrete scenario {A(100B), B(50B), C(5B)}, live {A},
threshold 10B, the plan is toKeep = {A, C}, toDelete = {B}. -/
theorem planner_decision_per_chunk (inventory : List ChunkRecord)
    (live : Finset ChunkIdentity) (pol : RetentionPolicy) (c : ChunkRecord)
    (hc : c ∈ inventory) :
    (c ∈ (planCompaction inventory live pol).toKeep ↔
      c.identity ∈ live ∨ c.size ≤ pol.smallChunkPreserveThresholdBytes) ∧
    (c ∈ (planCompaction inventory live pol).toDelete ↔
      ¬(c.identity ∈ live ∨ c.size ≤ pol.smallChunkPreserveThresholdBytes)) ∧
    scenarioPlan.toKeep = [chunkA, chunkC] ∧
    scenarioPlan.toDelete = [chunkB] := by
  refine ⟨?_, ?_, ?_, ?_⟩
  · rw [mem_toKeep_iff]
    exact ⟨fun h => h.2, fun h => ⟨hc, h⟩⟩
  · rw [mem_toDelete_iff]
    exact ⟨fun h => h.2, fun h => ⟨hc, h⟩⟩
  · decide
  · decide

/-- C2 witness: the per-chunk decision instantiated at chunk A of the
scenario inventory. -/
theorem planner_decision_per_chunk_witness :
    (chunkA ∈ (planCompaction [chunkA, chunkB, chunkC] {chunkA.identity}
        scenarioPolicy).toKeep ↔
      chunkA.identity ∈ ({chunkA.identity} : Finset ChunkIdentity) ∨
      chunkA.size ≤ scenarioPolicy.smallChunkPreserveThresholdBytes) ∧
    (chunkA ∈ (planCompaction [chunkA, chunkB, chunkC] {chunkA.identity}
        scenarioPolicy).toDelete ↔
      ¬(chunkA.identity ∈ ({chunkA.identity} : Finset ChunkIdentity) ∨
        chunkA.size ≤ scenarioPolicy.smallChunkPreserveThresholdBytes)) ∧
    scenarioPlan.toKeep = [chunkA, chunkC] ∧
    scenarioPlan.toDelete = [chunkB] :=
  planner_decision_per_chunk [chunkA, chunkB, chunkC] {chunkA.identity}
    scenarioPolicy chunkA (by decide)

/-- Running the planner twice on the same, unmutated inputs: both runs
and their results, as a pair. -/
def runPlannerTwice (inventory : List ChunkRecord)
    (live : Finset ChunkIdentity) (pol : RetentionPolicy) :
    CompactionPlan × CompactionPlan :=
  (planCompaction inventory live pol, planCompaction inventory live pol)

/-- C3: the planner is a deterministic, side-effect-free function of its
inputs — running it twice without mutating inventory or manifests
between runs yields two identical plans. -/
theorem planner_deterministic (inventory : List ChunkRecord)
    (live : Finset ChunkIdentity) (pol : RetentionPolicy) :
    (runPlannerTwice inventory live pol).1 =
      (runPlannerTwice inventory live pol).2 := rfl

/-- C4: a chunk whose size is at or below the small-chunk preserve
threshold is in `toKeep` and never in `toDelete`, regardless of its
reference state. -/
theorem small_chunk_always_kept (inventory : List ChunkRecord)
    (live : Finset ChunkIdentity) (pol : RetentionPolicy) (c : ChunkRecord)
    (hc : c ∈ inventory)
    (hsize : c.size ≤ pol.smallChunkPreserveThresholdBytes) :
    c ∈ (planCompaction inventory live pol).toKeep ∧
    c ∉ (planCompaction inventory live pol).toDelete := by
  constructor
  · exact (mem_toKeep_iff _ _ _ _).mpr ⟨hc, Or.inr hsize⟩
  · intro h
    exact ((mem_toDelete_iff _ _ _ _).mp h).2 (Or.inr hsize)

/-- C4 witness: chunk C (5 bytes, unreferenced) is kept under the 10-byte
threshold. -/
theorem small_chunk_always_kept_witness :
    chunkC ∈ (planCompaction [chunkA, chunkB, chunkC] ∅
      scenarioPolicy).toKeep ∧
    chunkC ∉ (planCompaction [chunkA, chunkB, chunkC] ∅
      scenarioPolicy).toDelete :=
  small_chunk_always_kept [chunkA, chunkB, chunkC] ∅ scenarioPolicy chunkC
    (by decide) (by decide)

/-- Counting a single element across a filter and its complement. -/
lemma count_filter_add_count_filter_not {α : Type} [DecidableEq α]
    (p : α → Bool) (l : List α) (a : α) :
    (l.filter p).count a + (l.filter (fun x => !p x)).count a = l.count a := by
  induction l with
  | nil => simp
  | cons x xs ih =>
      by_cases hp : p x = true <;>
        simp [List.filter_cons, hp, List.count_cons] <;> omega

/-- C5: the plan partitions the inventory — `toKeep` and `toDelete` are
disjoint, every inventory record appears in one of the two, and each
record's multiplicity in the inventory splits exactly across the two
components. -/
theorem plan_partitions_inventory (inventory : List ChunkRecord)
    (live : Finset ChunkIdentity) (pol : RetentionPolicy) :
    ∀ c : ChunkRecord,
      (c ∈ inventory ↔
        c ∈ (planCompaction inventory live pol).toKeep ∨
        c ∈ (planCompaction inventory live pol).toDelete) ∧
      ¬(c ∈ (planCompaction inventory live pol).toKeep ∧
        c ∈ (planCompaction inventory live pol).toDelete) ∧
      ((planCompaction inventory live pol).toKeep.count c +
        (planCompaction inventory live pol).toDelete.count c =
        inventory.count c) := by
  intro c
  refine ⟨?_, ?_, ?_⟩
  · rw [mem_toKeep_iff, mem_toDelete_iff]
    constructor
    · intro hc
      by_cases h : c.identity ∈ live ∨
          c.size ≤ pol.smallChunkPreserveThresholdBytes
      · exact Or.inl ⟨hc, h⟩
      · exact Or.inr ⟨hc, h⟩
    · rintro (h | h) <;> exact h.1
  · rintro ⟨hk, hd⟩
    exact ((mem_toDelete_iff _ _ _ _).mp hd).2 ((mem_toKeep_iff _ _ _ _).mp hk).2
  · rw [planCompaction_toKeep, planCompaction_toDelete]
    exact count_filter_add_count_filter_not _ _ _

/-- A deletion attempt reports the very record it attempted. -/
lemma attemptDelete_fst (del : DeleteOp) (c : ChunkRecord) :
    (attemptDelete del c).1 = c := by
  unfold attemptDelete
  cases del c.identity <;> rfl

/-- The reclaimed-bytes fold, with a generalized accumulator, equals the
accumulator plus the sum of sizes of succeeded items. -/
lemma foldl_tally (items : List (ChunkRecord × Outcome)) (acc : ℕ) :
    items.foldl (fun a it => if it.2.isSucceeded then a + it.1.size else a)
        acc =
      acc + ((items.filter (fun it => it.2.isSucceeded)).map
        (fun it => it.1.size)).sum := by
  induction items generalizing acc with
  | nil => simp
  | cons x xs ih =>
      by_cases h : x.2.isSucceeded = true
      · simp [List.filter_cons, h, ih]
        omega
      · simp [List.filter_cons, h, ih]

/-- The reclaimed-bytes tally is the sum of the sizes of exactly the
succeeded items. -/
lemma tallyReclaimed_eq (items : List (ChunkRecord × Outcome)) :
    tallyReclaimed items =
      ((items.filter (fun it => it.2.isSucceeded)).map
        (fun it => it.1.size)).sum := by
  simpa using foldl_tally items 0

/-- C6: in preview mode the executor leaves storage unchanged (a fresh
inventory of the returned storage is the input inventory), reports one
item per planned deletion, and marks every item skipped-dry-run. -/
theorem preview_mode_frame (storage : List ChunkRecord)
    (plan : CompactionPlan) (del : DeleteOp) :
    (executeCompaction ExecutionMode.preview storage plan del).1 = storage ∧
    (executeCompaction ExecutionMode.preview storage plan del).2.items.map
      Prod.fst = plan.toDelete ∧
    ((executeCompaction ExecutionMode.preview storage plan del).2.items.all
      (fun it => decide (it.2 = Outcome.skippedDryRun))) = true := by
  refine ⟨rfl, ?_, ?_⟩
  · show ((plan.toDelete.map fun c => (c, Outcome.skippedDryRun)).map
      Prod.fst) = plan.toDelete
    rw [List.map_map]
    exact (List.map_congr_left fun a _ => rfl).trans (List.map_id _)
  · simp [executeCompaction, List.all_eq_true]

/-- C7: in apply mode the executor processes every item of the plan
(one outcome per planned deletion, in order), a failing deletion is
recorded as failed-with-reason for that item without stopping the rest,
and the reported bytes reclaimed is the sum of sizes of exactly the
succeeded items. -/
theorem apply_mode_full_plan_aggregation (storage : List ChunkRecord)
    (plan : CompactionPlan) (del : DeleteOp) (c : ChunkRecord) (r : String)
    (hc : c ∈ plan.toDelete) (hr : del c.identity = some r) :
    (executeCompaction ExecutionMode.apply storage plan del).2.items.map
      Prod.fst = plan.toDelete ∧
    (c, Outcome.failedWithReason r) ∈
      (executeCompaction ExecutionMode.apply storage plan del).2.items ∧
    (executeCompaction ExecutionMode.apply storage plan del).2.bytesReclaimed =
      (((executeCompaction ExecutionMode.apply storage plan del).2.items.filter
        (fun it => it.2.isSucceeded)).map (fun it => it.1.size)).sum := by
  refine ⟨?_, ?_, ?_⟩
  · show (plan.toDelete.map (attemptDelete del)).map Prod.fst = plan.toDelete
    rw [List.map_map]
    exact List.map_congr_left (fun a _ => attemptDelete_fst del a) |>.trans
      (List.map_id _)
  · show (c, Outcome.failedWithReason r) ∈ plan.toDelete.map (attemptDelete del)
    exact List.mem_map.mpr ⟨c, hc, by simp [attemptDelete, hr]⟩
  · exact tallyReclaimed_eq _

/-- C7 witness: deleting chunk B fails with permission denied; the
outcome is recorded while the full plan is still processed. -/
theorem apply_mode_full_plan_aggregation_witness :
    (executeCompaction ExecutionMode.apply [chunkA, chunkB, chunkC]
      scenarioPlan (fun i => if i = 2 then some "permission denied"
        else none)).2.items.map Prod.fst = scenarioPlan.toDelete ∧
    (chunkB, Outcome.failedWithReason "permission denied") ∈
      (executeCompaction ExecutionMode.apply [chunkA, chunkB, chunkC]
        scenarioPlan (fun i => if i = 2 then some "permission denied"
          else none)).2.items ∧
    (executeCompaction ExecutionMode.apply [chunkA, chunkB, chunkC]
      scenarioPlan (fun i => if i = 2 then some "permission denied"
        else none)).2.bytesReclaimed =
      (((executeCompaction ExecutionMode.apply [chunkA, chunkB, chunkC]
        scenarioPlan (fun i => if i = 2 then some "permission denied"
          else none)).2.items.filter
        (fun it => it.2.isSucceeded)).map (fun it => it.1.size)).sum :=
  apply_mode_full_plan_aggregation [chunkA, chunkB, chunkC] scenarioPlan
    (fun i => if i = 2 then some "permission denied" else none)
    chunkB "permission denied" (by decide) rfl

/-- C8: building the ReferenceIndex is order-independent (folding a
permutation of the manifests yields the same live set) and idempotent
(re-folding an already-folded manifest changes nothing, and duplicate
chunk references within one manifest collapse). -/
theorem live_set_fold_order_independent_idempotent
    (ms msPerm : List ManifestRecord) (m : ManifestRecord)
    (hperm : ms.Perm msPerm) (hm : m ∈ ms) :
    buildLiveSet ms = buildLiveSet msPerm ∧
    buildLiveSet (m :: ms) = buildLiveSet ms ∧
    ∀ (i : String) (t : ℕ) (r : List ChunkIdentity),
      buildLiveSet (ManifestRecord.mk i t (r ++ r) :: ms) =
        buildLiveSet (ManifestRecord.mk i t r :: ms) := by
  refine ⟨?_, ?_, ?_⟩
  · ext c
    rw [mem_buildLiveSet, mem_buildLiveSet]
    constructor
    · rintro ⟨m', h1, h2⟩
      exact ⟨m', hperm.mem_iff.mp h1, h2⟩
    · rintro ⟨m', h1, h2⟩
      exact ⟨m', hperm.mem_iff.mpr h1, h2⟩
  · ext c
    rw [mem_buildLiveSet, mem_buildLiveSet]
    constructor
    · rintro ⟨m', h1, h2⟩
      rcases List.mem_cons.mp h1 with h | h
      · exact ⟨m, hm, h ▸ h2⟩
      · exact ⟨m', h, h2⟩
    · rintro ⟨m', h1, h2⟩
      exact ⟨m', List.mem_cons_of_mem m h1, h2⟩
  · intro i t r
    ext c
    rw [mem_buildLiveSet, mem_buildLiveSet]
    constructor
    · rintro ⟨m', h1, h2⟩
      rcases List.mem_cons.mp h1 with h | h
      · refine ⟨ManifestRecord.mk i t r, List.mem_cons_self _ _, ?_⟩
        have := h ▸ h2
        simpa [List.mem_append] using this
      · exact ⟨m', List.mem_cons_of_mem _ h, h2⟩
    · rintro ⟨m', h1, h2⟩
      rcases List.mem_cons.mp h1 with h | h
      · refine ⟨ManifestRecord.mk i t (r ++ r), List.mem_cons_self _ _, ?_⟩
        have := h ▸ h2
        simpa [List.mem_append] using this
      · exact ⟨m', List.mem_cons_of_mem _ h, h2⟩

/-- C8 witness: two manifests folded in both orders, with a re-fold of
the first. -/
theorem live_set_fold_order_independent_idempotent_witness :
    buildLiveSet [⟨"M1", 0, [1, 2]⟩, ⟨"M2", 0, [2, 3]⟩] =
      buildLiveSet [⟨"M2", 0, [2, 3]⟩, ⟨"M1", 0, [1, 2]⟩] ∧
    buildLiveSet (⟨"M1", 0, [1, 2]⟩ ::
        [⟨"M1", 0, [1, 2]⟩, ⟨"M2", 0, [2, 3]⟩]) =
      buildLiveSet [⟨"M1", 0, [1, 2]⟩, ⟨"M2", 0, [2, 3]⟩] ∧
    ∀ (i : String) (t : ℕ) (r : List ChunkIdentity),
      buildLiveSet (ManifestRecord.mk i t (r ++ r) ::
          [⟨"M1", 0, [1, 2]⟩, ⟨"M2", 0, [2, 3]⟩]) =
        buildLiveSet (ManifestRecord.mk i t r ::
          [⟨"M1", 0, [1, 2]⟩, ⟨"M2", 0, [2, 3]⟩]) :=
  live_set_fold_order_independent_idempotent
    [⟨"M1", 0, [1, 2]⟩, ⟨"M2", 0, [2, 3]⟩]
    [⟨"M2", 0, [2, 3]⟩, ⟨"M1", 0, [1, 2]⟩]
    ⟨"M1", 0, [1, 2]⟩
    (List.Perm.swap (⟨"M2", 0, [2, 3]⟩ : ManifestRecord)
      (⟨"M1", 0, [1, 2]⟩ : ManifestRecord) [])
    (List.mem_cons_self _ _)

/-- C9: a manifest older than `minAge` whose identifier is not on the
allowlist does not count live, is excluded from the selected manifests,
and removing it from the input entirely leaves the live set unchanged —
its chunk references never contribute. -/
theorem old_unlisted_manifest_excluded (pol : RetentionPolicy) (now : ℕ)
    (ms : List ManifestRecord) (M : ManifestRecord)
    (hage : pol.minAge < now - M.buildTimestamp)
    (hallow : M.ident ∉ pol.explicitManifestAllowlist) :
    manifestCountsLive pol now M = false ∧
    M ∉ selectLiveManifests pol now ms ∧
    buildLiveSet (selectLiveManifests pol now ms) =
      buildLiveSet (selectLiveManifests pol now
        (ms.filter (fun m => !(decide (m = M))))) := by
  have hdead : manifestCountsLive pol now M = false := by
    unfold manifestCountsLive
    have h1 : pol.explicitManifestAllowlist.contains M.ident = false := by
      simpa using hallow
    rw [h1]
    simpa using by omega
  refine ⟨hdead, ?_, ?_⟩
  · intro hmem
    have := (List.mem_filter.mp hmem).2
    rw [hdead] at this
    exact Bool.false_ne_true this
  · unfold selectLiveManifests
    rw [List.filter_filter]
    refine congrArg buildLiveSet (List.filter_congr ?_)
    intro a _
    by_cases ha : manifestCountsLive pol now a = true
    · have hne : a ≠ M := by
        intro h
        rw [h, hdead] at ha
        exact Bool.false_ne_true ha
      simp [ha, hne]
    · have hfa : manifestCountsLive pol now a = false := by
        simpa using ha
      simp [hfa]

/-- C9 witness: a manifest 100 time units old against a 5-unit minimum
age and an empty allowlist. -/
theorem old_unlisted_manifest_excluded_witness :
    manifestCountsLive ⟨5, [], 10⟩ 100 ⟨"old", 0, [7]⟩ = false ∧
    (⟨"old", 0, [7]⟩ : ManifestRecord) ∉
      selectLiveManifests ⟨5, [], 10⟩ 100 [⟨"old", 0, [7]⟩] ∧
    buildLiveSet (selectLiveManifests ⟨5, [], 10⟩ 100 [⟨"old", 0, [7]⟩]) =
      buildLiveSet (selectLiveManifests ⟨5, [], 10⟩ 100
        ([⟨"old", 0, [7]⟩].filter
          (fun m => !(decide (m = (⟨"old", 0, [7]⟩ : ManifestRecord)))))) :=
  old_unlisted_manifest_excluded ⟨5, [], 10⟩ 100 [⟨"old", 0, [7]⟩]
    ⟨"old", 0, [7]⟩ (by decide) (by decide)

/-- Modelled from the spec: the failure indicator of a run — `true`
exactly when the run could not complete. -/
def runFailed : Except RunError RunOutput → Bool
  | Except.error _ => true
  | Except.ok _ => false

/-- C10: the single run-compaction entry point fails exactly when the
run could not complete (manifest source or storage root unreachable);
on a completed run it returns a CompactionPlan summary in preview mode
and an ExecutionReport in apply mode. -/
theorem run_compaction_entry_point (pol : RetentionPolicy)
    (mode : ExecutionMode) (now : ℕ)
    (msrc : Option (List ManifestRecord)) (sroot : Option (List ChunkRecord))
    (del : DeleteOp) (ms : List ManifestRecord) (inv : List ChunkRecord) :
    (runFailed (runCompaction ⟨pol, mode⟩ now msrc sroot del) = false ↔
      msrc.isSome = true ∧ sroot.isSome = true) ∧
    (∃ p : CompactionPlan,
      runCompaction ⟨pol, ExecutionMode.preview⟩ now (some ms) (some inv)
        del = Except.ok (RunOutput.planSummary p)) ∧
    (∃ rep : ExecutionReport,
      runCompaction ⟨pol, ExecutionMode.apply⟩ now (some ms) (some inv)
        del = Except.ok (RunOutput.report rep)) := by
  refine ⟨?_, ?_, ?_⟩
  · cases msrc with
    | none => simp [runCompaction, runFailed]
    | some l =>
        cases sroot with
        | none => simp [runCompaction, runFailed]
        | some s => cases mode <;> simp [runCompaction, runFailed]
  · exact ⟨_, rfl⟩
  · exact ⟨_, rfl⟩

end Compactify
